import Mathlib

/-!
Shallow embedding of the PNG secret-message chunk codec.

Source files embedded here:
  - src/chunk_type.rs : ChunkType (4-byte type tag), its two constructors
    (TryFrom<[u8;4]> and FromStr), the case-bit predicates and Display.
  - src/chunk.rs : Chunk (length, type, data, crc), Chunk::new, as_bytes
    (encode), TryFrom<&[u8]> (decode) and data_as_string; the CRC-32
    (IEEE 802.3, reflected, init and xorout 0xFFFFFFFF) checksum of the
    crc crate (crc32::checksum_ieee).

Bytes are modelled as Nat with range hypotheses (b < 256) where u8 range
matters; u32 values as Nat below 2 ^ 32.  Fallible operations return
Except; a Rust panic (unwrap or an out-of-bounds index) is a dedicated
error or result constructor, so totality claims can distinguish a
returned error from an abort.
-/

set_option maxRecDepth 100000

namespace PngMsg

/-- Decidable equality for Except, used to evaluate decode results on
concrete inputs. -/
instance {ε α : Type} [DecidableEq ε] [DecidableEq α] : DecidableEq (Except ε α) := fun x y =>
  match x, y with
  | Except.ok a, Except.ok b => decidable_of_iff (a = b) (by simp)
  | Except.error a, Except.error b => decidable_of_iff (a = b) (by simp)
  | Except.ok _, Except.error _ => isFalse (fun h => by cases h)
  | Except.error _, Except.ok _ => isFalse (fun h => by cases h)

/-- u8::is_ascii : the byte is at most 0x7F. -/
def isAscii (b : Nat) : Bool := b ≤ 127

/-- u8::is_ascii_uppercase / char::is_ascii_uppercase. -/
def isAsciiUpper (b : Nat) : Bool := 65 ≤ b && b ≤ 90

/-- u8::is_ascii_lowercase / char::is_ascii_lowercase. -/
def isAsciiLower (b : Nat) : Bool := 97 ≤ b && b ≤ 122

/-- An ASCII letter, upper or lower case. -/
def isAsciiLetter (b : Nat) : Bool := isAsciiUpper b || isAsciiLower b

/-- ChunkType (src/chunk_type.rs): the struct field chunk_name : [u8; 4]
is split into its four positions. -/
structure ChunkType where
  name0 : Nat
  name1 : Nat
  name2 : Nat
  name3 : Nat
deriving DecidableEq, Repr

/-- The 4 tag bytes in order (ChunkType::bytes). -/
def ChunkType.bytes (t : ChunkType) : List Nat := [t.name0, t.name1, t.name2, t.name3]

/-- One iteration of the loop body of ChunkType::try_from: the byte is
copied into the zero-initialised array only when it is ASCII, otherwise
the position keeps its initial 0. -/
def keepAscii (b : Nat) : Nat := if isAscii b then b else 0

/-- TryFrom<[u8; 4]> for ChunkType (src/chunk_type.rs lines 15-29):
starts from chunk_name = [0; 4], copies each input byte that is ASCII,
leaves 0 elsewhere, and unconditionally returns Ok. -/
def ChunkType.try_from (b0 b1 b2 b3 : Nat) : Except String ChunkType :=
  Except.ok ⟨keepAscii b0, keepAscii b1, keepAscii b2, keepAscii b3⟩

/-- Write position i of the chunk_name array; only called with i < 4
(the Rust indexing panics otherwise, which the caller models). -/
def ChunkType.set (t : ChunkType) (i v : Nat) : ChunkType :=
  match i with
  | 0 => { t with name0 := v }
  | 1 => { t with name1 := v }
  | 2 => { t with name2 := v }
  | 3 => { t with name3 := v }
  | _ => t

/-- Result of ChunkType::from_str: Ok, Err("Could not parse"), or a
panic from indexing chunk_name out of bounds. -/
inductive FromStrResult where
  | ok (t : ChunkType)
  | parseError
  | panicked
deriving DecidableEq, Repr

/-- The loop of ChunkType::from_str over the characters of the input
string (each given by its code point), carrying the enumerate index and
the zero-initialised array.  A non-letter character returns the parse
error at once; a letter is written at the current index, which panics
(index out of bounds) when the index reaches 4. -/
def fromStrGo (index : Nat) (acc : ChunkType) : List Nat → FromStrResult
  | [] => FromStrResult.ok acc
  | c :: rest =>
    if isAsciiLetter c then
      if index < 4 then fromStrGo (index + 1) (acc.set index c) rest
      else FromStrResult.panicked
    else FromStrResult.parseError

/-- FromStr for ChunkType (src/chunk_type.rs lines 32-48).  The input
string is the list of its character code points. -/
def ChunkType.from_str (s : List Nat) : FromStrResult :=
  fromStrGo 0 ⟨0, 0, 0, 0⟩ s

/-- ChunkType::is_critical: byte 0 is upper case. -/
def ChunkType.is_critical (t : ChunkType) : Bool := isAsciiUpper t.name0

/-- ChunkType::is_public: byte 1 is upper case. -/
def ChunkType.is_public (t : ChunkType) : Bool := isAsciiUpper t.name1

/-- ChunkType::is_reserved_bit_valid: byte 2 is upper case. -/
def ChunkType.is_reserved_bit_valid (t : ChunkType) : Bool := isAsciiUpper t.name2

/-- ChunkType::is_safe_to_copy: byte 3 is lower case. -/
def ChunkType.is_safe_to_copy (t : ChunkType) : Bool := isAsciiLower t.name3

/-- ChunkType::is_valid, exactly as written in the source: the reserved
bit, then is_ascii of bytes 0, 1, 1 (byte 1 is tested twice; byte 2 is
never tested directly) and 3. -/
def ChunkType.is_valid (t : ChunkType) : Bool :=
  t.is_reserved_bit_valid && isAscii t.name0 && isAscii t.name1 &&
    isAscii t.name1 && isAscii t.name3

/-- All four stored bytes are ASCII. -/
def ChunkType.allAscii (t : ChunkType) : Bool :=
  isAscii t.name0 && isAscii t.name1 && isAscii t.name2 && isAscii t.name3

/-- UTF-8 validity automaton step (std::str::from_utf8 / String::from_utf8
of the Rust standard library).  State 0 accepts; states 1-3 need that
many continuation bytes; states 4-7 are the constrained second-byte
states after 0xE0, 0xED, 0xF0 and 0xF4. -/
def utf8Next (state b : Nat) : Option Nat :=
  match state with
  | 0 =>
    if b ≤ 127 then some 0
    else if 194 ≤ b && b ≤ 223 then some 1
    else if b == 224 then some 4
    else if b == 237 then some 5
    else if (225 ≤ b && b ≤ 236) || b == 238 || b == 239 then some 2
    else if b == 240 then some 6
    else if 241 ≤ b && b ≤ 243 then some 3
    else if b == 244 then some 7
    else none
  | 1 => if 128 ≤ b && b ≤ 191 then some 0 else none
  | 2 => if 128 ≤ b && b ≤ 191 then some 1 else none
  | 3 => if 128 ≤ b && b ≤ 191 then some 2 else none
  | 4 => if 160 ≤ b && b ≤ 191 then some 1 else none
  | 5 => if 128 ≤ b && b ≤ 159 then some 1 else none
  | 6 => if 144 ≤ b && b ≤ 191 then some 2 else none
  | 7 => if 128 ≤ b && b ≤ 143 then some 2 else none
  | _ => none

/-- The byte list is valid UTF-8 (model of std UTF-8 validation). -/
def validUtf8 (l : List Nat) : Bool :=
  (l.foldl (fun s b => s.bind (fun st => utf8Next st b)) (some 0)) == some 0

/-- Display for ChunkType (src/chunk_type.rs lines 51-55):
str::from_utf8(&chunk_name).unwrap(); none models the unwrap panic on
invalid UTF-8. -/
def ChunkType.render (t : ChunkType) : Option (List Nat) :=
  if validUtf8 t.bytes then some t.bytes else none

/-- Chunk (src/chunk.rs): length, typee, data, crc, with the names of
the source fields. -/
structure Chunk where
  length : Nat
  typee : ChunkType
  data : List Nat
  crc : Nat
deriving DecidableEq, Repr

/-- Chunk::new (src/chunk.rs lines 23-31): takes all four fields and
stores them verbatim; nothing is computed or validated here. -/
def Chunk.new (length : Nat) (typee : ChunkType) (data : List Nat) (crc : Nat) : Chunk :=
  ⟨length, typee, data, crc⟩

/-- The reflected CRC-32 polynomial 0xEDB88320. -/
def crcPoly : Nat := 3988292384

/-- One bit step of the reflected CRC-32: shift right, conditionally
xor the polynomial. -/
def crcStepBit (c : Nat) : Nat :=
  if c % 2 == 1 then (c / 2) ^^^ crcPoly else c / 2

/-- One byte step: xor the byte into the register, then 8 bit steps. -/
def crcStepByte (c b : Nat) : Nat :=
  crcStepBit (crcStepBit (crcStepBit (crcStepBit
    (crcStepBit (crcStepBit (crcStepBit (crcStepBit (c ^^^ b))))))))

/-- crc32::checksum_ieee of the crc crate: init 0xFFFFFFFF, reflected
polynomial, final xor 0xFFFFFFFF. -/
def checksum_ieee (bytes : List Nat) : Nat :=
  (bytes.foldl crcStepByte 4294967295) ^^^ 4294967295

/-- u32::to_be_bytes. -/
def u32BeBytes (n : Nat) : List Nat :=
  [n / 16777216 % 256, n / 65536 % 256, n / 256 % 256, n % 256]

/-- u32::from_be_bytes. -/
def u32FromBe (b0 b1 b2 b3 : Nat) : Nat :=
  b0 * 16777216 + b1 * 65536 + b2 * 256 + b3

/-- u32::from_be_bytes applied to the first four elements of a list
with at least four elements (0 otherwise; only used on long lists). -/
def u32FromBeList : List Nat → Nat
  | b0 :: b1 :: b2 :: b3 :: _ => u32FromBe b0 b1 b2 b3
  | _ => 0

/-- Chunk::as_bytes (src/chunk.rs lines 57-66): big-endian length, the
4 tag bytes, the data, big-endian crc. -/
def Chunk.as_bytes (c : Chunk) : List Nat :=
  u32BeBytes c.length ++ c.typee.bytes ++ c.data ++ u32BeBytes c.crc

/-- Decode failures of TryFrom<&[u8]> for Chunk.  truncated is the io
UnexpectedEof error propagated with the question-mark operator;
panicked is the unwrap on the second read_exact (the type-tag read);
chunkTypeError is the propagated ChunkType::try_from error (in fact
unreachable); invalidChunk is the final checksum mismatch. -/
inductive DecodeError where
  | truncated
  | panicked
  | chunkTypeError
  | invalidChunk
deriving DecidableEq, Repr

/-- read_exact into a 4-byte buffer: the next four bytes and the rest
of the stream, or failure when fewer than four bytes remain. -/
def read4 : List Nat → Option (Nat × Nat × Nat × Nat × List Nat)
  | b0 :: b1 :: b2 :: b3 :: rest => some (b0, b1, b2, b3, rest)
  | _ => none

/-- read_exact into a buffer of n bytes: the next n bytes and the rest
of the stream, or failure when fewer than n bytes remain. -/
def readExact (n : Nat) (l : List Nat) : Option (List Nat × List Nat) :=
  if n ≤ l.length then some (l.take n, l.drop n) else none

/-- TryFrom<&[u8]> for Chunk (src/chunk.rs lines 69-99): read the
big-endian length, the type tag (with unwrap, hence panicked on a
short stream), the data, the stored big-endian crc; recompute the
checksum over the constructed tag bytes followed by the data; succeed
with the recomputed crc exactly when it equals the stored one. -/
def Chunk.try_from (bytes : List Nat) : Except DecodeError Chunk :=
  match read4 bytes with
  | none => Except.error DecodeError.truncated
  | some (l0, l1, l2, l3, rest1) =>
    let data_length := u32FromBe l0 l1 l2 l3
    match read4 rest1 with
    | none => Except.error DecodeError.panicked
    | some (t0, t1, t2, t3, rest2) =>
      match ChunkType.try_from t0 t1 t2 t3 with
      | Except.error _ => Except.error DecodeError.chunkTypeError
      | Except.ok chunk_type =>
        match readExact data_length rest2 with
        | none => Except.error DecodeError.truncated
        | some (chunk_data, rest3) =>
          match read4 rest3 with
          | none => Except.error DecodeError.truncated
          | some (c0, c1, c2, c3, _) =>
            let received_crc := u32FromBe c0 c1 c2 c3
            let crc := checksum_ieee (chunk_type.bytes ++ chunk_data)
            let chunk := Chunk.new data_length chunk_type chunk_data crc
            if chunk.crc == received_crc then Except.ok chunk
            else Except.error DecodeError.invalidChunk

/-- Chunk::data_as_string (src/chunk.rs lines 49-55): the data bytes
interpreted as UTF-8 text, or an encoding error. -/
def Chunk.data_as_string (c : Chunk) : Except Unit (List Nat) :=
  if validUtf8 c.data then Except.ok c.data else Except.error ()

/-- The running CRC register after folding a byte list into an initial
register value; checksum_ieee is crcRun from 0xFFFFFFFF followed by the
final xor. -/
def crcRun (c : Nat) (l : List Nat) : Nat := l.foldl crcStepByte c

/-- The tag that ChunkType::try_from builds from four raw bytes. -/
def tagOf (t0 t1 t2 t3 : Nat) : ChunkType :=
  ⟨keepAscii t0, keepAscii t1, keepAscii t2, keepAscii t3⟩

/-- The UTF-8 bytes of the test payload string of src/chunk.rs:
"This is where your secret message will be!". -/
def msgBytes : List Nat :=
  [84, 104, 105, 115, 32, 105, 115, 32, 119, 104, 101, 114, 101, 32,
   121, 111, 117, 114, 32, 115, 101, 99, 114, 101, 116, 32, 109, 101,
   115, 115, 97, 103, 101, 32, 119, 105, 108, 108, 32, 98, 101, 33]

/-- The encoded test chunk of src/chunk.rs: length 42, type RuSt, the
payload, and the big-endian checksum 2882656334. -/
def goodChunkBytes : List Nat :=
  [0, 0, 0, 42] ++ [82, 117, 83, 116] ++ msgBytes ++ [171, 209, 216, 78]

/-- The same bytes with the stored checksum 2882656333 instead
(big-endian 171, 209, 216, 77). -/
def badChunkBytes : List Nat :=
  [0, 0, 0, 42] ++ [82, 117, 83, 116] ++ msgBytes ++ [171, 209, 216, 77]

/- ------------------------------------------------------------------ -/
/- Helper lemmas. -/

theorem crcRun_append (c : Nat) (l1 l2 : List Nat) :
    crcRun c (l1 ++ l2) = crcRun (crcRun c l1) l2 := by
  simp [crcRun, List.foldl_append]

theorem checksum_eq_crcRun (l : List Nat) :
    checksum_ieee l = crcRun 4294967295 l ^^^ 4294967295 := rfl

/-- The checksum of the RuSt test vector, evaluated in three segments
to keep each reduction shallow. -/
theorem checksum_msg :
    checksum_ieee ([82, 117, 83, 116] ++ msgBytes) = 2882656334 := by
  have hsplit : ([82, 117, 83, 116] ++ msgBytes : List Nat) =
      [82, 117, 83, 116, 84, 104, 105, 115, 32, 105, 115, 32, 119, 104, 101, 114] ++
        ([101, 32, 121, 111, 117, 114, 32, 115, 101, 99, 114, 101, 116, 32, 109, 101] ++
          [115, 115, 97, 103, 101, 32, 119, 105, 108, 108, 32, 98, 101, 33]) := by decide
  have h1 : crcRun 4294967295
      [82, 117, 83, 116, 84, 104, 105, 115, 32, 105, 115, 32, 119, 104, 101, 114] =
      3296048446 := by decide
  have h2 : crcRun 3296048446
      [101, 32, 121, 111, 117, 114, 32, 115, 101, 99, 114, 101, 116, 32, 109, 101] =
      3991588506 := by decide
  have h3 : crcRun 3991588506
      [115, 115, 97, 103, 101, 32, 119, 105, 108, 108, 32, 98, 101, 33] =
      1412310961 := by decide
  rw [checksum_eq_crcRun, hsplit, crcRun_append, crcRun_append, h1, h2, h3]
  decide

theorem exists_cons4 (l : List Nat) (h : 4 ≤ l.length) :
    ∃ a b c d r, l = a :: b :: c :: d :: r := by
  rcases l with _ | ⟨a, _ | ⟨b, _ | ⟨c, _ | ⟨d, r⟩⟩⟩⟩
  · simp at h
  · simp at h
  · simp at h
  · simp at h
  · exact ⟨a, b, c, d, r, rfl⟩

theorem read4_cons (b0 b1 b2 b3 : Nat) (rest : List Nat) :
    read4 (b0 :: b1 :: b2 :: b3 :: rest) = some (b0, b1, b2, b3, rest) := rfl

theorem readExact_of_le (n : Nat) (l : List Nat) (h : n ≤ l.length) :
    readExact n l = some (l.take n, l.drop n) := by
  simp [readExact, h]

theorem u32FromBeList_cons (b0 b1 b2 b3 : Nat) (r : List Nat) :
    u32FromBeList (b0 :: b1 :: b2 :: b3 :: r) = u32FromBe b0 b1 b2 b3 := rfl

theorem u32FromBe_u32BeBytes (n : Nat) (h : n < 4294967296) :
    u32FromBeList (u32BeBytes n) = n := by
  simp only [u32BeBytes, u32FromBeList, u32FromBe]
  omega

theorem u32BeBytes_u32FromBe (b0 b1 b2 b3 : Nat)
    (h0 : b0 < 256) (h1 : b1 < 256) (h2 : b2 < 256) (h3 : b3 < 256) :
    u32BeBytes (u32FromBe b0 b1 b2 b3) = [b0, b1, b2, b3] := by
  simp only [u32BeBytes, u32FromBe, List.cons.injEq, and_true]
  refine ⟨by omega, by omega, by omega, by omega⟩

theorem xor_lt_u32 (a b : Nat) (ha : a < 4294967296) (hb : b < 4294967296) :
    a ^^^ b < 4294967296 := by
  have h32 : (2 : Nat) ^ 32 = 4294967296 := by norm_num
  have h := Nat.xor_lt_two_pow (n := 32) (by rw [h32]; exact ha) (by rw [h32]; exact hb)
  rw [h32] at h
  exact h

theorem crcStepBit_lt (c : Nat) (h : c < 4294967296) :
    crcStepBit c < 4294967296 := by
  have hhalf : c / 2 < 4294967296 := by omega
  have hpoly : crcPoly < 4294967296 := by decide
  unfold crcStepBit
  split
  · exact xor_lt_u32 _ _ hhalf hpoly
  · omega

theorem crcStepByte_lt (c b : Nat) (hc : c < 4294967296) (hb : b < 4294967296) :
    crcStepByte c b < 4294967296 := by
  have hx : c ^^^ b < 4294967296 := xor_lt_u32 _ _ hc hb
  unfold crcStepByte
  exact crcStepBit_lt _ (crcStepBit_lt _ (crcStepBit_lt _ (crcStepBit_lt _
    (crcStepBit_lt _ (crcStepBit_lt _ (crcStepBit_lt _ (crcStepBit_lt _ hx)))))))

theorem crcRun_lt (l : List Nat) : ∀ c : Nat, c < 4294967296 →
    (∀ b ∈ l, b < 4294967296) → crcRun c l < 4294967296 := by
  induction l with
  | nil => intro c hc _; simpa [crcRun] using hc
  | cons b t ih =>
    intro c hc hl
    have hb : b < 4294967296 := hl b (by simp)
    have ht : ∀ x ∈ t, x < 4294967296 := fun x hx => hl x (by simp [hx])
    simpa [crcRun, List.foldl_cons] using ih (crcStepByte c b) (crcStepByte_lt c b hc hb) ht

theorem checksum_lt (l : List Nat) (h : ∀ b ∈ l, b < 4294967296) :
    checksum_ieee l < 4294967296 := by
  have hr := crcRun_lt l 4294967295 (by omega) h
  exact xor_lt_u32 _ _ hr (by omega)

theorem readExact_some (n : Nat) (l d r : List Nat)
    (h : readExact n l = some (d, r)) :
    n ≤ l.length ∧ d = l.take n ∧ r = l.drop n := by
  unfold readExact at h
  split at h
  next hle =>
    simp only [Option.some.injEq, Prod.mk.injEq] at h
    exact ⟨hle, h.1.symm, h.2.symm⟩
  next hle => cases h

theorem read4_some (l : List Nat) (b0 b1 b2 b3 : Nat) (r : List Nat)
    (h : read4 l = some (b0, b1, b2, b3, r)) :
    l = b0 :: b1 :: b2 :: b3 :: r := by
  rcases l with _ | ⟨a0, _ | ⟨a1, _ | ⟨a2, _ | ⟨a3, t⟩⟩⟩⟩ <;> simp [read4] at h ⊢
  exact h

/-- Evaluation of Chunk decode on a stream that starts with 8 header
bytes and has at least L + 4 bytes after them: the result is decided by
comparing the recomputed checksum with the stored one. -/
theorem try_from_eval (l0 l1 l2 l3 t0 t1 t2 t3 : Nat) (dataRest : List Nat)
    (h : u32FromBe l0 l1 l2 l3 + 4 ≤ dataRest.length) :
    Chunk.try_from (l0 :: l1 :: l2 :: l3 :: t0 :: t1 :: t2 :: t3 :: dataRest) =
      if checksum_ieee ((tagOf t0 t1 t2 t3).bytes ++
            dataRest.take (u32FromBe l0 l1 l2 l3)) =
          u32FromBeList (dataRest.drop (u32FromBe l0 l1 l2 l3)) then
        Except.ok (Chunk.new (u32FromBe l0 l1 l2 l3) (tagOf t0 t1 t2 t3)
          (dataRest.take (u32FromBe l0 l1 l2 l3))
          (checksum_ieee ((tagOf t0 t1 t2 t3).bytes ++
            dataRest.take (u32FromBe l0 l1 l2 l3))))
      else Except.error DecodeError.invalidChunk := by
  obtain ⟨c0, c1, c2, c3, r, hdrop⟩ :=
    exists_cons4 (dataRest.drop (u32FromBe l0 l1 l2 l3)) (by simp; omega)
  have hle : u32FromBe l0 l1 l2 l3 ≤ dataRest.length := by omega
  simp only [Chunk.try_from, read4, ChunkType.try_from, readExact_of_le _ _ hle, hdrop,
    u32FromBeList_cons, tagOf, Chunk.new, beq_iff_eq]

/-- Any successful Chunk decode comes from a stream of the shape
length-bytes, tag-bytes, at least L + 4 further bytes, and the decoded
chunk is determined by that shape. -/
theorem try_from_ok_shape (bytes : List Nat) (ch : Chunk)
    (h : Chunk.try_from bytes = Except.ok ch) :
    ∃ l0 l1 l2 l3 t0 t1 t2 t3 dataRest,
      bytes = l0 :: l1 :: l2 :: l3 :: t0 :: t1 :: t2 :: t3 :: dataRest ∧
      u32FromBe l0 l1 l2 l3 + 4 ≤ dataRest.length ∧
      ch = Chunk.new (u32FromBe l0 l1 l2 l3) (tagOf t0 t1 t2 t3)
          (dataRest.take (u32FromBe l0 l1 l2 l3))
          (checksum_ieee ((tagOf t0 t1 t2 t3).bytes ++
            dataRest.take (u32FromBe l0 l1 l2 l3))) ∧
      ch.crc = u32FromBeList (dataRest.drop (u32FromBe l0 l1 l2 l3)) := by
  rcases bytes with _ | ⟨l0, _ | ⟨l1, _ | ⟨l2, _ | ⟨l3, _ | ⟨t0, _ | ⟨t1, _ | ⟨t2, _ | ⟨t3, dataRest⟩⟩⟩⟩⟩⟩⟩⟩ <;>
    try exact Except.noConfusion h
  simp only [Chunk.try_from, read4, ChunkType.try_from] at h
  split at h
  · exact Except.noConfusion h
  next data rest3 hre =>
    split at h
    · exact Except.noConfusion h
    next c0 c1 c2 c3 r hr4 =>
      split at h
      next hbeq =>
        obtain ⟨hle, hdata, hrest⟩ := readExact_some _ _ _ _ hre
        have hshape := read4_some _ _ _ _ _ _ hr4
        rw [beq_iff_eq] at hbeq
        injection h with hch
        refine ⟨l0, l1, l2, l3, t0, t1, t2, t3, dataRest, rfl, ?_, ?_, ?_⟩
        · have : rest3.length = dataRest.length - u32FromBe l0 l1 l2 l3 := by
            rw [hrest]; simp
          rw [hshape] at this
          simp at this
          omega
        · rw [← hch]
          simp [Chunk.new, tagOf, hdata]
        · rw [← hch]
          have hdrop : dataRest.drop (u32FromBe l0 l1 l2 l3) = c0 :: c1 :: c2 :: c3 :: r := by
            rw [← hrest, hshape]
          rw [hdrop, u32FromBeList_cons]
          simpa [Chunk.new] using hbeq
      next hbeq => exact Except.noConfusion h

theorem keepAscii_le (b : Nat) : keepAscii b ≤ 127 := by
  by_cases h : b ≤ 127 <;> simp [keepAscii, isAscii, h]

theorem keepAscii_of_le (b : Nat) (h : b ≤ 127) : keepAscii b = b := by
  simp [keepAscii, isAscii, h]

/- ------------------------------------------------------------------ -/
/- Claim theorems. -/

/-- C4 (code bug): decode is expected to return a Truncated error on
every short input, but the second read_exact is unwrapped: a stream of
4 to 7 bytes panics instead of returning an error.  Streams shorter
than 4 bytes, streams that cannot supply the declared data and streams
missing the crc do return the error. -/
theorem decode_short_input_panics :
    Chunk.try_from [0, 0, 0, 0] = Except.error DecodeError.panicked ∧
    Chunk.try_from [0, 0, 0, 1, 82, 117, 83] = Except.error DecodeError.panicked ∧
    Chunk.try_from [] = Except.error DecodeError.truncated ∧
    Chunk.try_from [0, 0, 0] = Except.error DecodeError.truncated ∧
    Chunk.try_from [0, 0, 0, 5, 82, 117, 83, 116] = Except.error DecodeError.truncated ∧
    Chunk.try_from [0, 0, 0, 1, 82, 117, 83, 116, 0] = Except.error DecodeError.truncated := by
  decide

/-- C5 (code bug): from_str is expected to fail on any string that is
not exactly 4 letters, but the length is never checked: a 2-letter
string is accepted with trailing zero bytes, and a 5-letter string
panics on an out-of-bounds array write.  A non-letter character does
produce the parse error, and 4 letters are accepted. -/
theorem from_str_length_unchecked :
    ChunkType.from_str [82, 117] = FromStrResult.ok ⟨82, 117, 0, 0⟩ ∧
    ChunkType.from_str [82, 117, 83, 116, 115] = FromStrResult.panicked ∧
    ChunkType.from_str [82, 117, 49, 116] = FromStrResult.parseError ∧
    ChunkType.from_str [82, 117, 83, 116] = FromStrResult.ok ⟨82, 117, 83, 116⟩ := by
  decide

/-- C6 counterexample: from_bytes does not store non-ASCII bytes
verbatim; input byte 255 is silently replaced by 0 in the constructed
tag. -/
theorem from_bytes_verbatim_cex :
    ChunkType.try_from 255 65 66 67 = Except.ok ⟨0, 65, 66, 67⟩ ∧
    (⟨0, 65, 66, 67⟩ : ChunkType) ≠ ⟨255, 65, 66, 67⟩ := by
  decide

/-- C6 amended: from_bytes always succeeds; each ASCII byte (at most
0x7F) is stored verbatim, and each non-ASCII byte position is left 0. -/
theorem from_bytes_total_zeroing (b0 b1 b2 b3 : Nat)
    (_h0 : b0 < 256) (_h1 : b1 < 256) (_h2 : b2 < 256) (_h3 : b3 < 256) :
    ChunkType.try_from b0 b1 b2 b3 =
      Except.ok ⟨if b0 ≤ 127 then b0 else 0, if b1 ≤ 127 then b1 else 0,
                 if b2 ≤ 127 then b2 else 0, if b3 ≤ 127 then b3 else 0⟩ := by
  simp [ChunkType.try_from, keepAscii, isAscii]

theorem from_bytes_total_zeroing_witness :
    ChunkType.try_from 200 65 190 67 = Except.ok ⟨0, 65, 0, 67⟩ := by
  have h := from_bytes_total_zeroing 200 65 190 67 (by decide) (by decide)
    (by decide) (by decide)
  simpa using h

/-- C7 counterexample: a tag whose byte 1 is the digit 1 (not a
letter) is constructible from raw bytes, yet is_valid returns true,
because the source tests is_ascii instead of letter membership. -/
theorem is_valid_letters_cex :
    ChunkType.try_from 82 49 83 116 = Except.ok ⟨82, 49, 83, 116⟩ ∧
    ChunkType.is_valid ⟨82, 49, 83, 116⟩ = true ∧
    isAsciiLetter 49 = false := by
  decide

/-- C7 amended: is_valid is true exactly when byte 2 is an upper-case
letter (the reserved bit) and bytes 0, 1 and 3 are ASCII (at most
0x7F); ASCII letters are not required, byte 1 is tested twice, and
byte 2 is only constrained through the reserved-bit test. -/
theorem is_valid_characterization (b0 b1 b2 b3 : Nat) :
    ChunkType.is_valid ⟨b0, b1, b2, b3⟩ = true ↔
      (65 ≤ b2 ∧ b2 ≤ 90) ∧ b0 ≤ 127 ∧ b1 ≤ 127 ∧ b3 ≤ 127 := by
  simp [ChunkType.is_valid, ChunkType.is_reserved_bit_valid, isAsciiUpper, isAscii]
  tauto

theorem is_valid_characterization_witness :
    ChunkType.is_valid ⟨49, 50, 75, 51⟩ = true :=
  (is_valid_characterization 49 50 75 51).mpr (by decide)

/-- C8: for every constructed tag, is_critical tests upper case of
byte 0, is_public of byte 1, is_reserved_bit_valid of byte 2, and
is_safe_to_copy tests lower case of byte 3; for the tag RuSt
(82, 117, 83, 116) this gives critical, not public, reserved-bit
valid, and safe to copy. -/
theorem case_bit_semantics :
    (∀ b0 b1 b2 b3 : Nat,
      (ChunkType.is_critical ⟨b0, b1, b2, b3⟩ = true ↔ 65 ≤ b0 ∧ b0 ≤ 90) ∧
      (ChunkType.is_public ⟨b0, b1, b2, b3⟩ = true ↔ 65 ≤ b1 ∧ b1 ≤ 90) ∧
      (ChunkType.is_reserved_bit_valid ⟨b0, b1, b2, b3⟩ = true ↔ 65 ≤ b2 ∧ b2 ≤ 90) ∧
      (ChunkType.is_safe_to_copy ⟨b0, b1, b2, b3⟩ = true ↔ 97 ≤ b3 ∧ b3 ≤ 122)) ∧
    ChunkType.is_critical ⟨82, 117, 83, 116⟩ = true ∧
    ChunkType.is_public ⟨82, 117, 83, 116⟩ = false ∧
    ChunkType.is_reserved_bit_valid ⟨82, 117, 83, 116⟩ = true ∧
    ChunkType.is_safe_to_copy ⟨82, 117, 83, 116⟩ = true := by
  refine ⟨fun b0 b1 b2 b3 => ?_, by decide, by decide, by decide, by decide⟩
  simp [ChunkType.is_critical, ChunkType.is_public, ChunkType.is_reserved_bit_valid,
    ChunkType.is_safe_to_copy, isAsciiUpper, isAsciiLower]

theorem case_bit_semantics_witness :
    ChunkType.is_critical ⟨82, 117, 83, 116⟩ = true :=
  (case_bit_semantics.1 82 117 83 116).1.mpr (by decide)

/-- C9: the src/chunk.rs test vector.  Decoding length 42, type RuSt,
the payload "This is where your secret message will be!" and stored
checksum 2882656334 succeeds; data_as_string on the decoded chunk
returns exactly the payload bytes and length is 42.  With stored
checksum 2882656333 decoding fails with the checksum error. -/
theorem concrete_decode_vector :
    Chunk.try_from goodChunkBytes =
      Except.ok (Chunk.new 42 ⟨82, 117, 83, 116⟩ msgBytes 2882656334) ∧
    (Chunk.new 42 ⟨82, 117, 83, 116⟩ msgBytes 2882656334).data_as_string =
      Except.ok msgBytes ∧
    (Chunk.new 42 ⟨82, 117, 83, 116⟩ msgBytes 2882656334).length = 42 ∧
    Chunk.try_from badChunkBytes = Except.error DecodeError.invalidChunk := by
  have h42 : u32FromBe 0 0 0 42 = 42 := by decide
  have htag : tagOf 82 117 83 116 = ⟨82, 117, 83, 116⟩ := by decide
  have hbytes : ChunkType.bytes ⟨82, 117, 83, 116⟩ = [82, 117, 83, 116] := rfl
  refine ⟨?_, ?_, rfl, ?_⟩
  · have hgood : goodChunkBytes =
        0 :: 0 :: 0 :: 42 :: 82 :: 117 :: 83 :: 116 :: (msgBytes ++ [171, 209, 216, 78]) := by
      decide
    have hlen : u32FromBe 0 0 0 42 + 4 ≤ (msgBytes ++ [171, 209, 216, 78]).length := by decide
    have htake : (msgBytes ++ [171, 209, 216, 78]).take (u32FromBe 0 0 0 42) = msgBytes := by
      decide
    have hdrop : (msgBytes ++ [171, 209, 216, 78]).drop (u32FromBe 0 0 0 42) =
        [171, 209, 216, 78] := by decide
    have hstored : u32FromBeList [171, 209, 216, 78] = 2882656334 := by decide
    rw [hgood, try_from_eval 0 0 0 42 82 117 83 116 _ hlen, htake, hdrop, hstored, htag,
      hbytes, checksum_msg, h42]
    simp
  · have hutf : validUtf8 msgBytes = true := by decide
    simp [Chunk.data_as_string, Chunk.new, hutf]
  · have hbad : badChunkBytes =
        0 :: 0 :: 0 :: 42 :: 82 :: 117 :: 83 :: 116 :: (msgBytes ++ [171, 209, 216, 77]) := by
      decide
    have hlen : u32FromBe 0 0 0 42 + 4 ≤ (msgBytes ++ [171, 209, 216, 77]).length := by decide
    have htake : (msgBytes ++ [171, 209, 216, 77]).take (u32FromBe 0 0 0 42) = msgBytes := by
      decide
    have hdrop : (msgBytes ++ [171, 209, 216, 77]).drop (u32FromBe 0 0 0 42) =
        [171, 209, 216, 77] := by decide
    have hstored : u32FromBeList [171, 209, 216, 77] = 2882656333 := by decide
    rw [hbad, try_from_eval 0 0 0 42 82 117 83 116 _ hlen, htake, hdrop, hstored, htag,
      hbytes, checksum_msg]
    simp

/-- C3 counterexample: Chunk::new does not compute the checksum; it
stores the given crc verbatim, so a chunk whose crc disagrees with the
checksum of its tag bytes and data is constructible. -/
theorem chunk_crc_invariant_cex :
    (Chunk.new 0 ⟨82, 117, 83, 116⟩ [] 1).crc ≠
      checksum_ieee ((Chunk.new 0 ⟨82, 117, 83, 116⟩ [] 1).typee.bytes ++
        (Chunk.new 0 ⟨82, 117, 83, 116⟩ [] 1).data) := by
  decide

/-- C3 amended: new takes length, type, data and crc and stores all
four verbatim, with no computation or validation, so mismatched
checksums are constructible through new; the crc invariant is enforced
only on the decode path, where every successfully decoded chunk
satisfies crc = checksum(tag bytes ++ data). -/
theorem chunk_new_stores_fields :
    (∀ (l : Nat) (t : ChunkType) (d : List Nat) (c : Nat),
      (Chunk.new l t d c).length = l ∧ (Chunk.new l t d c).typee = t ∧
      (Chunk.new l t d c).data = d ∧ (Chunk.new l t d c).crc = c) ∧
    (∀ (bytes : List Nat) (ch : Chunk), Chunk.try_from bytes = Except.ok ch →
      ch.crc = checksum_ieee (ch.typee.bytes ++ ch.data)) := by
  refine ⟨fun l t d c => ⟨rfl, rfl, rfl, rfl⟩, fun bytes ch h => ?_⟩
  obtain ⟨l0, l1, l2, l3, t0, t1, t2, t3, dataRest, hb, hlen, hch, hcrc⟩ :=
    try_from_ok_shape bytes ch h
  rw [hch]
  rfl

theorem chunk_new_stores_fields_witness :
    (Chunk.new 0 ⟨82, 117, 83, 116⟩ [] 3565422908).crc =
      checksum_ieee ((Chunk.new 0 ⟨82, 117, 83, 116⟩ [] 3565422908).typee.bytes ++
        (Chunk.new 0 ⟨82, 117, 83, 116⟩ [] 3565422908).data) :=
  chunk_new_stores_fields.2 [0, 0, 0, 0, 82, 117, 83, 116, 212, 132, 9, 60]
    (Chunk.new 0 ⟨82, 117, 83, 116⟩ [] 3565422908) (by decide)

/-- C2: on a stream of at least 8 + L + 4 byte-valued entries, decode
fails with the checksum error exactly when the CRC-32 recomputed over
the constructed type-tag bytes followed by the L data bytes differs
from the stored big-endian crc; on success the chunk holds L, that
tag, the data, and a crc equal to the stored value. -/
theorem chunk_decode_checksum_validation (l0 l1 l2 l3 t0 t1 t2 t3 : Nat)
    (dataRest : List Nat)
    (_hbytes : ∀ b ∈ l0 :: l1 :: l2 :: l3 :: t0 :: t1 :: t2 :: t3 :: dataRest, b < 256)
    (h : u32FromBe l0 l1 l2 l3 + 4 ≤ dataRest.length) :
    (Chunk.try_from (l0 :: l1 :: l2 :: l3 :: t0 :: t1 :: t2 :: t3 :: dataRest) =
        Except.error DecodeError.invalidChunk ↔
      checksum_ieee ((tagOf t0 t1 t2 t3).bytes ++
          dataRest.take (u32FromBe l0 l1 l2 l3)) ≠
        u32FromBeList (dataRest.drop (u32FromBe l0 l1 l2 l3))) ∧
    ∀ ch : Chunk,
      Chunk.try_from (l0 :: l1 :: l2 :: l3 :: t0 :: t1 :: t2 :: t3 :: dataRest) =
        Except.ok ch →
      ch = Chunk.new (u32FromBe l0 l1 l2 l3) (tagOf t0 t1 t2 t3)
        (dataRest.take (u32FromBe l0 l1 l2 l3))
        (u32FromBeList (dataRest.drop (u32FromBe l0 l1 l2 l3))) := by
  rw [try_from_eval l0 l1 l2 l3 t0 t1 t2 t3 dataRest h]
  constructor
  · split
    next hc => simp [hc]
    next hc => simp [hc]
  · intro ch hch
    split at hch
    next hc =>
      injection hch with hch'
      rw [← hch', hc]
    next hc => exact Except.noConfusion hch

theorem chunk_decode_checksum_validation_witness :
    Chunk.try_from [0, 0, 0, 0, 82, 117, 83, 116, 212, 132, 9, 61] =
      Except.error DecodeError.invalidChunk :=
  (chunk_decode_checksum_validation 0 0 0 0 82 117 83 116 [212, 132, 9, 61]
    (by decide) (by decide)).1.mpr (by decide)

theorem u32FromBe_of_parts (n : Nat) (h : n < 4294967296) :
    u32FromBe (n / 16777216 % 256) (n / 65536 % 256) (n / 256 % 256) (n % 256) = n := by
  simp only [u32FromBe]
  omega

theorem take_add_split : ∀ (m : Nat) (l : List Nat) (k : Nat),
    l.take (m + k) = l.take m ++ (l.drop m).take k := by
  intro m
  induction m with
  | zero => intro l k; simp
  | succ m ih =>
    intro l k
    cases l with
    | nil => simp
    | cons a t =>
      have hshift : m + 1 + k = (m + k) + 1 := by omega
      rw [hshift]
      simp [List.take_succ_cons, List.drop_succ_cons, ih t k]

theorem take_cons8 (x0 x1 x2 x3 x4 x5 x6 x7 n : Nat) (l : List Nat) :
    (x0 :: x1 :: x2 :: x3 :: x4 :: x5 :: x6 :: x7 :: l).take (12 + n) =
      x0 :: x1 :: x2 :: x3 :: x4 :: x5 :: x6 :: x7 :: l.take (4 + n) := by
  have h8 : 12 + n = 8 + (4 + n) := by omega
  rw [h8, show (8 : Nat) + (4 + n) = (((((((4 + n) + 1) + 1) + 1) + 1) + 1) + 1) + 1 + 1
    from by omega]
  simp [List.take_succ_cons]

/-- C1 counterexample.  First failure: decode accepts a stream with a
trailing extra byte (it never checks that the input is exhausted), so
re-encoding the decoded chunk does not reproduce the input.  Second
failure: a chunk built over a tag holding the non-ASCII byte 200 does
not survive encode-then-decode, because decode rebuilds the tag with
the non-ASCII byte zeroed and the recomputed checksum no longer
matches. -/
theorem chunk_roundtrip_cex :
    Chunk.try_from [0, 0, 0, 0, 82, 117, 83, 116, 212, 132, 9, 60, 7] =
      Except.ok (Chunk.new 0 ⟨82, 117, 83, 116⟩ [] 3565422908) ∧
    (Chunk.new 0 ⟨82, 117, 83, 116⟩ [] 3565422908).as_bytes ≠
      [0, 0, 0, 0, 82, 117, 83, 116, 212, 132, 9, 60, 7] ∧
    Chunk.try_from (Chunk.new 0 ⟨200, 117, 83, 116⟩ []
        (checksum_ieee (ChunkType.bytes ⟨200, 117, 83, 116⟩ ++ []))).as_bytes ≠
      Except.ok (Chunk.new 0 ⟨200, 117, 83, 116⟩ []
        (checksum_ieee (ChunkType.bytes ⟨200, 117, 83, 116⟩ ++ []))) := by
  refine ⟨by decide, by decide, by decide⟩

/-- C1 amended.  Encode-then-decode restores the chunk for every chunk
whose length equals its data length (below 2 ^ 32), whose data is
byte-valued, and whose tag bytes are ASCII (as is the case for every
tag either constructor can produce, see the C10 theorem), with the crc
computed over the tag bytes and data.  Decode-then-encode reproduces
exactly the 8 + L + 4 consumed bytes of the input, that is, its prefix
of length 12 + L: decode ignores trailing bytes, so only inputs of the
exact encoded length (with an ASCII type-tag field) are reproduced in
full. -/
theorem chunk_roundtrip :
    (∀ (t : ChunkType) (d : List Nat), t.allAscii = true → (∀ b ∈ d, b < 256) →
      d.length < 4294967296 →
      Chunk.try_from (Chunk.new d.length t d (checksum_ieee (t.bytes ++ d))).as_bytes =
        Except.ok (Chunk.new d.length t d (checksum_ieee (t.bytes ++ d)))) ∧
    (∀ (bytes : List Nat) (ch : Chunk), (∀ b ∈ bytes, b < 256) →
      (∀ b ∈ (bytes.drop 4).take 4, b ≤ 127) →
      Chunk.try_from bytes = Except.ok ch →
      ch.as_bytes = bytes.take (12 + ch.length)) := by
  constructor
  · intro t d ht hd hl
    obtain ⟨t0, t1, t2, t3⟩ := t
    simp only [ChunkType.allAscii, isAscii, Bool.and_eq_true, decide_eq_true_eq] at ht
    obtain ⟨⟨⟨ht0, ht1⟩, ht2⟩, ht3⟩ := ht
    have hbound : ∀ b ∈ ([t0, t1, t2, t3] : List Nat) ++ d, b < 4294967296 := by
      intro b hb
      rcases List.mem_append.mp hb with hb | hb
      · simp [List.mem_cons] at hb
        rcases hb with rfl | rfl | rfl | rfl <;> omega
      · have := hd b hb; omega
    have hK : checksum_ieee (ChunkType.bytes ⟨t0, t1, t2, t3⟩ ++ d) < 4294967296 := by
      simpa [ChunkType.bytes] using checksum_lt _ hbound
    have hL : u32FromBe (d.length / 16777216 % 256) (d.length / 65536 % 256)
        (d.length / 256 % 256) (d.length % 256) = d.length := u32FromBe_of_parts _ hl
    have htag : tagOf t0 t1 t2 t3 = ⟨t0, t1, t2, t3⟩ := by
      simp [tagOf, keepAscii_of_le _ ht0, keepAscii_of_le _ ht1, keepAscii_of_le _ ht2,
        keepAscii_of_le _ ht3]
    have hform : (Chunk.new d.length ⟨t0, t1, t2, t3⟩ d
        (checksum_ieee (ChunkType.bytes ⟨t0, t1, t2, t3⟩ ++ d))).as_bytes =
        (d.length / 16777216 % 256) :: (d.length / 65536 % 256) :: (d.length / 256 % 256) ::
        (d.length % 256) :: t0 :: t1 :: t2 :: t3 ::
        (d ++ u32BeBytes (checksum_ieee (ChunkType.bytes ⟨t0, t1, t2, t3⟩ ++ d))) := by
      simp [Chunk.as_bytes, Chunk.new, u32BeBytes, ChunkType.bytes]
    have hlen : u32FromBe (d.length / 16777216 % 256) (d.length / 65536 % 256)
        (d.length / 256 % 256) (d.length % 256) + 4 ≤
        (d ++ u32BeBytes (checksum_ieee (ChunkType.bytes ⟨t0, t1, t2, t3⟩ ++ d))).length := by
      rw [hL]
      simp [u32BeBytes]
    rw [hform, try_from_eval _ _ _ _ _ _ _ _ _ hlen, hL, htag,
      List.take_left' rfl, List.drop_left' rfl]
    have hstored : u32FromBeList
        (u32BeBytes (checksum_ieee (ChunkType.bytes ⟨t0, t1, t2, t3⟩ ++ d))) =
        checksum_ieee (ChunkType.bytes ⟨t0, t1, t2, t3⟩ ++ d) :=
      u32FromBe_u32BeBytes _ hK
    rw [hstored]
    simp
  · intro bytes ch hb256 hasc h
    obtain ⟨l0, l1, l2, l3, t0, t1, t2, t3, dataRest, hb, hlen, hch, hcrc⟩ :=
      try_from_ok_shape bytes ch h
    subst hb
    have hl0 : l0 < 256 := hb256 _ (by simp)
    have hl1 : l1 < 256 := hb256 _ (by simp)
    have hl2 : l2 < 256 := hb256 _ (by simp)
    have hl3 : l3 < 256 := hb256 _ (by simp)
    have hdr : ∀ b ∈ dataRest, b < 256 := fun b hbm => hb256 b (by simp [hbm])
    have htb : (((l0 :: l1 :: l2 :: l3 :: t0 :: t1 :: t2 :: t3 :: dataRest).drop 4).take 4) =
        [t0, t1, t2, t3] := rfl
    rw [htb] at hasc
    have ht0 : t0 ≤ 127 := hasc _ (by simp)
    have ht1 : t1 ≤ 127 := hasc _ (by simp)
    have ht2 : t2 ≤ 127 := hasc _ (by simp)
    have ht3 : t3 ≤ 127 := hasc _ (by simp)
    obtain ⟨c0, c1, c2, c3, r, hdrop⟩ :=
      exists_cons4 (dataRest.drop (u32FromBe l0 l1 l2 l3)) (by simp; omega)
    have hmem : ∀ b ∈ (c0 :: c1 :: c2 :: c3 :: r : List Nat), b < 256 := by
      intro b hbm
      exact hdr b (List.drop_subset _ _ (by rw [hdrop]; exact hbm))
    have hc0 : c0 < 256 := hmem _ (by simp)
    have hc1 : c1 < 256 := hmem _ (by simp)
    have hc2 : c2 < 256 := hmem _ (by simp)
    have hc3 : c3 < 256 := hmem _ (by simp)
    have htag : tagOf t0 t1 t2 t3 = ⟨t0, t1, t2, t3⟩ := by
      simp [tagOf, keepAscii_of_le _ ht0, keepAscii_of_le _ ht1, keepAscii_of_le _ ht2,
        keepAscii_of_le _ ht3]
    have hKstored : checksum_ieee ((tagOf t0 t1 t2 t3).bytes ++
        dataRest.take (u32FromBe l0 l1 l2 l3)) = u32FromBe c0 c1 c2 c3 := by
      have hx := hcrc
      rw [hch] at hx
      rw [hdrop, u32FromBeList_cons] at hx
      simpa [Chunk.new] using hx
    have hbe : u32BeBytes (u32FromBe l0 l1 l2 l3) = [l0, l1, l2, l3] :=
      u32BeBytes_u32FromBe _ _ _ _ hl0 hl1 hl2 hl3
    have hcbe : u32BeBytes (u32FromBe c0 c1 c2 c3) = [c0, c1, c2, c3] :=
      u32BeBytes_u32FromBe _ _ _ _ hc0 hc1 hc2 hc3
    have h4 : ((c0 :: c1 :: c2 :: c3 :: r : List Nat)).take 4 = [c0, c1, c2, c3] := rfl
    rw [hch]
    simp only [Chunk.new, Chunk.as_bytes]
    rw [take_cons8,
      show 4 + u32FromBe l0 l1 l2 l3 = u32FromBe l0 l1 l2 l3 + 4 from by omega,
      take_add_split, hdrop, h4, hKstored, hbe, hcbe, htag]
    simp [ChunkType.bytes]

theorem chunk_roundtrip_witness :
    Chunk.try_from (Chunk.new ([] : List Nat).length ⟨82, 117, 83, 116⟩ []
        (checksum_ieee (ChunkType.bytes ⟨82, 117, 83, 116⟩ ++ []))).as_bytes =
      Except.ok (Chunk.new ([] : List Nat).length ⟨82, 117, 83, 116⟩ []
        (checksum_ieee (ChunkType.bytes ⟨82, 117, 83, 116⟩ ++ []))) :=
  chunk_roundtrip.1 ⟨82, 117, 83, 116⟩ [] (by decide) (by simp) (by decide)

theorem letter_le (c : Nat) (h : isAsciiLetter c = true) : c ≤ 127 := by
  simp [isAsciiLetter, isAsciiUpper, isAsciiLower] at h
  omega

theorem allAscii_set (t : ChunkType) (i v : Nat) (ht : t.allAscii = true) (hv : v ≤ 127) :
    (t.set i v).allAscii = true := by
  obtain ⟨a, b, c, d⟩ := t
  rcases i with _ | _ | _ | _ | i <;>
    simp_all [ChunkType.set, ChunkType.allAscii, isAscii]

theorem fromStrGo_allAscii (s : List Nat) : ∀ (index : Nat) (acc t : ChunkType),
    acc.allAscii = true → fromStrGo index acc s = FromStrResult.ok t →
    t.allAscii = true := by
  induction s with
  | nil =>
    intro i acc t ha h
    simp only [fromStrGo, FromStrResult.ok.injEq] at h
    rwa [← h]
  | cons c rest ih =>
    intro i acc t ha h
    unfold fromStrGo at h
    split at h
    next hlet =>
      split at h
      next hidx =>
        exact ih (i + 1) (acc.set i c) t (allAscii_set _ _ _ ha (letter_le c hlet)) h
      next hidx => cases h
    next hlet => cases h

theorem utf8fold_ascii : ∀ l : List Nat, (∀ b ∈ l, b ≤ 127) →
    l.foldl (fun s b => s.bind (fun st => utf8Next st b)) (some 0) = some 0 := by
  intro l
  induction l with
  | nil => intro _; rfl
  | cons b rest ih =>
    intro h
    have hb : b ≤ 127 := h b (by simp)
    have hrest := fun x hx => h x (List.mem_cons_of_mem _ hx)
    simp only [List.foldl_cons]
    have hstep : (some 0).bind (fun st => utf8Next st b) = some 0 := by
      simp [utf8Next, hb]
    rw [hstep]
    exact ih hrest

theorem validUtf8_of_ascii (l : List Nat) (h : ∀ b ∈ l, b ≤ 127) :
    validUtf8 l = true := by
  unfold validUtf8
  rw [utf8fold_ascii l h]
  rfl

theorem allAscii_bytes (t : ChunkType) (h : t.allAscii = true) :
    ∀ b ∈ t.bytes, b ≤ 127 := by
  obtain ⟨a, b, c, d⟩ := t
  simp only [ChunkType.allAscii, isAscii, Bool.and_eq_true, decide_eq_true_eq] at h
  intro x hx
  simp [ChunkType.bytes, List.mem_cons] at hx
  rcases hx with rfl | rfl | rfl | rfl <;> omega

/-- C10: every tag either constructor can produce stores only ASCII
bytes (at most 0x7F; non-ASCII input positions are left 0), and for
every all-ASCII tag the Display rendering (str::from_utf8 followed by
unwrap) succeeds and returns the 4 tag bytes: the UTF-8 decoding step
can never fail for a constructible tag. -/
theorem constructible_tags_ascii :
    (∀ (b0 b1 b2 b3 : Nat) (t : ChunkType),
      ChunkType.try_from b0 b1 b2 b3 = Except.ok t → t.allAscii = true) ∧
    (∀ (s : List Nat) (t : ChunkType),
      ChunkType.from_str s = FromStrResult.ok t → t.allAscii = true) ∧
    (∀ t : ChunkType, t.allAscii = true → t.render = some t.bytes) := by
  refine ⟨?_, ?_, ?_⟩
  · intro b0 b1 b2 b3 t h
    unfold ChunkType.try_from at h
    injection h with h'
    rw [← h']
    simp [ChunkType.allAscii, isAscii, keepAscii_le]
  · intro s t h
    exact fromStrGo_allAscii s 0 ⟨0, 0, 0, 0⟩ t (by decide) h
  · intro t h
    unfold ChunkType.render
    rw [validUtf8_of_ascii _ (allAscii_bytes t h)]
    simp

theorem constructible_tags_ascii_witness :
    ChunkType.allAscii ⟨0, 65, 66, 67⟩ = true ∧
    ChunkType.allAscii ⟨82, 117, 0, 0⟩ = true ∧
    ChunkType.render ⟨82, 117, 83, 116⟩ = some [82, 117, 83, 116] :=
  ⟨constructible_tags_ascii.1 150 65 66 67 ⟨0, 65, 66, 67⟩ (by decide),
   constructible_tags_ascii.2.1 [82, 117] ⟨82, 117, 0, 0⟩ (by decide),
   constructible_tags_ascii.2.2 ⟨82, 117, 83, 116⟩ (by decide)⟩

end PngMsg
